import Mathlib

/-!
Formal model of the commit-agent generation engine
(`core/validator.py`, `core/generator.py`, `core/engine.py`,
`lab/batch.py`, `lab/metrics.py`, `lab/compare.py`).

Python dictionaries are modelled as association lists with first-match
lookup (dict keys are unique, so the first binding is the binding); the
generation backend, template loading and wall-clock timing are external
effects and appear as explicit oracle parameters.
-/

/-- Scalar JSON value, as produced by decoding a backend response or held in a
constraints mapping.  Composite values are not needed by the engine paths
modelled here. -/
inductive JValue : Type
  | str (s : String)
  | num (n : Int)
  | bool (b : Bool)
  | null
deriving DecidableEq, Repr

/-- A decoded flat JSON object (Python `dict`), as an association list. -/
abbrev JObj : Type := List (String × JValue)

def JValue.isStr : JValue → Bool
  | .str _ => true
  | _ => false

/-- First-match lookup; models Python `dict.get(k)` returning `None` when the
key is absent. -/
def jLookup (m : JObj) (k : String) : Option JValue :=
  (m.find? (fun p => p.1 == k)).map (·.2)

/-- Models Python `isinstance(v, int)` coercion of a looked-up JSON value
(`bool` is a subclass of `int` in Python, so `True`/`False` count as 1/0). -/
def jsonInt : Option JValue → Option Int
  | some (JValue.num n) => some n
  | some (JValue.bool b) => some (if b then 1 else 0)
  | _ => none

/-- Model of `core/types.py` `CommitMessage`: structured commit produced by generation;
`word_count` is populated later by the validator/engine. -/
structure CommitMessage : Type where
  type : Option String
  scope : Option String
  subject : Option String
  body : Option String
  word_count : Option Nat := none
deriving DecidableEq, Repr

/-- Model of `core/types.py` `ValidationResult`. -/
structure ValidationResult : Type where
  violations : List String
  word_count : Nat
deriving DecidableEq, Repr

/-- Python truthiness of an optional string (`None` and `""` are falsy). -/
def optStrTruthy (o : Option String) : Bool :=
  o.getD "" != ""

/-- Model of `validator._validate_presence`: `subject_missing` when the subject is
absent or empty. -/
def validate_presence (commit : CommitMessage) : List String :=
  if optStrTruthy commit.subject then [] else ["subject_missing"]

/-- Model of `validator._validate_subject_length`: the length check is skipped entirely
for an absent/empty subject. -/
def validate_subject_length (commit : CommitMessage) : List String :=
  if optStrTruthy commit.subject then
    if (commit.subject.getD "").length > 72 then ["subject_too_long"] else []
  else []

/-- Python `" ".join(part for part in [subject, body] if part)`. -/
def joinSubjectBody (commit : CommitMessage) : String :=
  " ".intercalate (([commit.subject, commit.body].filterMap id).filter (fun s => s != ""))

/-- The pieces of a character list between separator characters, empty pieces
included (the piece structure of Python `str.split(sep)`). -/
def splitChars (p : Char → Bool) : List Char → List (List Char)
  | [] => [[]]
  | c :: cs =>
    match splitChars p cs with
    | [] => [[]]
    | t :: ts => if p c then [] :: t :: ts else (c :: t) :: ts

/-- Python `text.split()` : split on whitespace runs, discarding empty pieces. -/
def pySplitWS (s : String) : List String :=
  ((splitChars (fun c => c.isWhitespace) s.toList).map List.asString).filter
    (fun t => t != "")

/-- Model of `validator._compute_word_count`: whitespace-delimited token count of the
subject and body joined by a single space (`len(text.split()) if text else 0`;
the `if text` guard is redundant since `"".split() == []`). -/
def compute_word_count (commit : CommitMessage) : Nat :=
  (pySplitWS (joinSubjectBody commit)).length

/-- Model of `validator._validate_length_constraints` on the `min`/`max` bounds mapping;
a bound only constrains when it is present with an integer value. -/
def validate_length_constraints (word_count : Nat) (constraints : JObj) : List String :=
  (match jsonInt (jLookup constraints "min") with
   | some mn => if (word_count : Int) < mn then ["word_count_below_min"] else []
   | none => []) ++
  (match jsonInt (jLookup constraints "max") with
   | some mx => if (word_count : Int) > mx then ["word_count_above_max"] else []
   | none => [])

/-- Python `re.match(r"^[a-z]+$", s)`: the whole string (allowing one final
newline, which `$` tolerates) is one or more ASCII lowercase letters. -/
def pyMatchLowerWord (s : String) : Bool :=
  let cs := s.toList
  let t := if cs.getLast? == some '\n' then cs.dropLast else cs
  !t.isEmpty && t.all (fun c => 'a' ≤ c && c ≤ 'z')

/-- Model of `validator._validate_conventional_format`. -/
def validate_conventional_format (commit : CommitMessage) : List String :=
  match commit.type with
  | none => []
  | some t => if pyMatchLowerWord t then [] else ["invalid_type_format"]

/-- Model of `validator.validate_commit`: all checks evaluated, violations concatenated
in a fixed order, word count computed once. -/
def validate_commit (commit : CommitMessage) (constraints : JObj) : ValidationResult :=
  let violations :=
    validate_presence commit ++ validate_subject_length commit ++
    validate_conventional_format commit
  let word_count := compute_word_count commit
  { violations := violations ++ validate_length_constraints word_count constraints
    word_count := word_count }

/-- Text extraction used by `generator.normalize` for the optional fields:
`parsed.get(k) if isinstance(parsed.get(k), str) else None` — a present
non-text value is silently dropped to `None`, an absent key stays `None`. -/
def jTextOf : Option JValue → Option String
  | some (JValue.str s) => some s
  | _ => none

namespace Generator

/-- Model of `generator.normalize`: fails (returns `none`) exactly when the
`subject` key is present with a non-text value; the other fields are coerced
with `jTextOf`; `word_count` is left unset. -/
def normalize (parsed : JObj) : Option CommitMessage :=
  let subject := jLookup parsed "subject"
  if (match subject with
      | some v => !v.isStr
      | none => false) then none
  else
    some { type := jTextOf (jLookup parsed "type"), scope := jTextOf (jLookup parsed "scope"),
           subject := jTextOf subject, body := jTextOf (jLookup parsed "body"),
           word_count := none }

/-- Model of the tail of `generator.generate_commit` (lines 198-200): a failed
`normalize` is surfaced as the `invalid_schema` error code. -/
def normalizeOutcome (parsed : JObj) : Except String CommitMessage :=
  match normalize parsed with
  | none => Except.error "invalid_schema"
  | some commit => Except.ok commit

end Generator

/-- Strict lexicographic order on character lists, by code point; models the
Python `<` comparison on strings. -/
def charListLT : List Char → List Char → Bool
  | [], [] => false
  | [], _ :: _ => true
  | _ :: _, [] => false
  | a :: as, b :: bs => if a < b then true else if a = b then charListLT as bs else false

/-- Python `a < b` on strings. -/
def strLT (a b : String) : Bool := charListLT a.toList b.toList

/-- Python `a <= b` on strings (total order, so `a <= b` is `not (b < a)`). -/
def strLE (a b : String) : Bool := !(strLT b a)

/-- Stable insertion used to model Python sorting: `x` is inserted after every
element strictly below it, hence before any element tied with it, which is
exactly the placement a stable sort gives an element coming from further left. -/
def pyInsert (lt : α → α → Bool) (x : α) : List α → List α
  | [] => [x]
  | y :: ys => if lt y x then y :: pyInsert lt x ys else x :: y :: ys

/-- Model of Python `sorted` / `list.sort` with strict comparator `lt`: a
stable sort.  Any two stable sorts agree on every input, so this insertion
sort computes exactly what Python's stable sort computes. -/
def pySorted (lt : α → α → Bool) : List α → List α
  | [] => []
  | x :: xs => pyInsert lt x (pySorted lt xs)

/-- JSON serialization of a scalar value, as `json.dumps` renders it (string
escaping is not modelled; the engine only serializes plain keys and integer
bounds). -/
def jDumpVal : JValue → String
  | JValue.str s => "\"" ++ s ++ "\""
  | JValue.num n => if n < 0 then "-" ++ Nat.repr n.natAbs else Nat.repr n.toNat
  | JValue.bool b => if b then "true" else "false"
  | JValue.null => "null"

/-- Model of Python `json.dumps(obj, sort_keys=True)` on a flat object: items
sorted by key, rendered with the default `", "` / `": "` separators. -/
def jsonDumpsSorted (m : JObj) : String :=
  "\x7b" ++
    ", ".intercalate
      ((pySorted (fun a b => strLT a.1 b.1) m).map
        (fun p => "\"" ++ p.1 ++ "\": " ++ jDumpVal p.2)) ++
  "\x7d"

/-- Model of `core/types.py` `DiffContext` (the ChangeSnapshot). -/
structure DiffContext : Type where
  diff : String
  status : String
  files_changed : List String
  insertions : Nat
  deletions : Nat
deriving DecidableEq, Repr

/-- Model of `generator.build_prompt`: template, intent (`intent or ''`),
constraints serialized with `json.dumps(constraints or \x7b\x7d, sort_keys=True)`,
then status and diff, in a fixed textual layout. -/
def build_prompt (template : String) (context : DiffContext) (intent : Option String)
    (constraints : Option JObj) : String :=
  let constraints_text := jsonDumpsSorted (constraints.getD [])
  template ++ "\n\n" ++
  "Intent: " ++ intent.getD "" ++ "\n" ++
  "Constraints: " ++ constraints_text ++ "\n" ++
  "Status:\n" ++ context.status ++ "\n\n" ++
  "Diff:\n" ++ context.diff ++ "\n"

/-- Containment of one character list in another as a contiguous run. -/
def charsInfixOf (needle : List Char) : List Char → Bool
  | [] => needle.isEmpty
  | c :: cs => needle.isPrefixOf (c :: cs) || charsInfixOf needle cs

/-- Python `needle in haystack` on strings. -/
def pyInStr (needle hay : String) : Bool :=
  charsInfixOf needle.toList hay.toList

/-- Value stored in an `EngineResult.meta` dictionary (strings from generator
metadata, plus the booleans/integers/None the engine itself stores). -/
inductive MetaVal : Type
  | str (s : String)
  | bool (b : Bool)
  | nat (n : Nat)
  | null
deriving DecidableEq, Repr

/-- Python `None`-or-string, as stored into a meta dictionary. -/
def MetaVal.ofOptStr : Option String → MetaVal
  | none => MetaVal.null
  | some s => MetaVal.str s

/-- Engine metadata dictionary.  Lookup is first-match, so `Meta.set` (Python
`meta[k] = v`) conses the new binding in front, and a Python `dict` merge where
`overlay` wins is `overlay ++ base`. -/
abbrev Meta : Type := List (String × MetaVal)

def Meta.set (m : Meta) (k : String) (v : MetaVal) : Meta := (k, v) :: m

def Meta.get? (m : Meta) (k : String) : Option MetaVal :=
  (m.find? (fun p => p.1 == k)).map (·.2)

/-- Python `meta.get(k, "")` in a context where the value is used as text. -/
def Meta.getStr (m : Meta) (k : String) : String :=
  match Meta.get? m k with
  | some (MetaVal.str s) => s
  | _ => ""

/-- String-valued metadata of a single generator attempt, lifted into `Meta`. -/
def strMeta (m : List (String × String)) : Meta :=
  m.map (fun p => (p.1, MetaVal.str p.2))

/-- Model of `core/types.py` `GeneratorOutput`: the outcome of one
`generate_commit` call (generator meta values are all strings in the source:
`reason`, `provider`, `model`). -/
structure GeneratorOutput : Type where
  commit : Option CommitMessage
  error : Option String
  meta : List (String × String)
deriving DecidableEq, Repr

/-- Model of `core/types.py` `EngineResult`.  Wall-clock latency is an external
effect; engine runs modelled here record it as 0 (no claim depends on the
value the engine computes for it). -/
structure EngineResult : Type where
  commit : Option CommitMessage
  violations : List String
  retries : Nat
  latency_ms : Nat
  error : Option String
  meta : Meta
deriving DecidableEq, Repr

/-- Python `generated.error or "unknown"` (both `None` and `""` are falsy). -/
def orUnknown : Option String → String
  | none => "unknown"
  | some s => if s == "" then "unknown" else s

/-- The `provider`/`model`/`strategy` base metadata of `engine._run_target`. -/
def baseTargetMeta (strategy provider model : String) : Meta :=
  [("provider", MetaVal.str provider), ("model", MetaVal.str model),
   ("strategy", MetaVal.str strategy)]

/-- Loop body of `engine._run_target`.  The backend (everything inside
`generate_commit`: template loading, prompt build, provider call, parsing,
normalization) is the oracle `gen`, indexed by the current attempt number.
`fuel` is the number of loop iterations still allowed (`max_retries + 1 -
retries`, so the Python guard `retries <= max_retries` is `fuel > 0`);
`calls` counts backend invocations (instrumentation, not part of the source).
Returns the `EngineResult` together with the total invocation count. -/
def runTargetGo (gen : Nat → GeneratorOutput) (constraints : JObj)
    (strategy provider model : String) (max_retries : Nat) :
    Nat → Nat → Option String → List String → List (String × String) → Nat →
    EngineResult × Nat
  | 0, _retries, last_error, last_violations, last_meta, calls =>
    ({ commit := none, violations := last_violations, retries := max_retries,
       latency_ms := 0, error := last_error,
       meta := strMeta last_meta ++ baseTargetMeta strategy provider model }, calls)
  | fuel + 1, retries, last_error, last_violations, last_meta, calls =>
    let generated := gen retries
    match generated.commit with
    | none =>
      runTargetGo gen constraints strategy provider model max_retries
        fuel (retries + 1) (some (orUnknown generated.error)) last_violations
        generated.meta (calls + 1)
    | some commit =>
      let validation := validate_commit commit constraints
      let commit := { commit with word_count := some validation.word_count }
      if validation.violations.isEmpty then
        ({ commit := some commit, violations := [], retries := retries,
           latency_ms := 0, error := none,
           meta := strMeta generated.meta ++ baseTargetMeta strategy provider model },
         calls + 1)
      else
        runTargetGo gen constraints strategy provider model max_retries
          fuel (retries + 1) (some "validation_failed") validation.violations
          last_meta (calls + 1)

/-- Model of `engine._run_target`: run one target with retries, starting from
attempt 0 with empty last-error/violations/meta state. -/
def runTarget (gen : Nat → GeneratorOutput) (constraints : JObj)
    (strategy provider model : String) (max_retries : Nat) : EngineResult × Nat :=
  runTargetGo gen constraints strategy provider model max_retries
    (max_retries + 1) 0 none [] [] 0

/-- Model of `config/loader.py` `ConstraintConfig`. -/
structure ConstraintConfig : Type where
  min : Int
  max : Int
deriving DecidableEq, Repr

/-- Model of `config/loader.py` `FallbackConfig`. -/
structure FallbackConfig : Type where
  provider : String
  model : String
  strategy : String
deriving DecidableEq, Repr

/-- Model of `config/loader.py` `ProdConfig`. -/
structure ProdConfig : Type where
  strategy : String
  provider : String
  model : String
  fallback : FallbackConfig
  constraints : ConstraintConfig
  max_retries : Nat
  timeout_seconds : Nat
deriving DecidableEq, Repr

/-- Model of `engine._constraints_to_dict`. -/
def constraints_to_dict (c : ConstraintConfig) : JObj :=
  [("min", JValue.num c.min), ("max", JValue.num c.max)]

/-- The primary target run of `engine.run_once`, annotated as the source
annotates it (`timeout_seconds`, then `fallback_used = False`) before the
success check. -/
def runOncePrimary (genP : Nat → GeneratorOutput) (config : ProdConfig) : EngineResult :=
  let constraints := constraints_to_dict config.constraints
  let primary :=
    (runTarget genP constraints config.strategy config.provider config.model
      config.max_retries).1
  { primary with
      meta :=
        Meta.set (Meta.set primary.meta "timeout_seconds" (MetaVal.nat config.timeout_seconds))
          "fallback_used" (MetaVal.bool false) }

/-- The credential short-circuit test of `engine.run_once`: a `provider_error`
whose diagnostic reason mentions `GROQ_API_KEY`. -/
def missingCredential (r : EngineResult) : Bool :=
  r.error == some "provider_error" && pyInStr "GROQ_API_KEY" (Meta.getStr r.meta "reason")

/-- Result of `engine.run_once`, instrumented with whether the fallback target
was invoked and how many times the git context was read (the source calls
`read_git_context` exactly once, before the primary run). -/
structure RunOnceOut : Type where
  result : EngineResult
  fallbackRan : Bool
  ctxReads : Nat
deriving DecidableEq, Repr

/-- Model of `engine.run_once`: primary run, success return, credential
short-circuit, otherwise fallback run annotated with `fallback_used`,
`primary_error` and `primary_retries`. -/
def runOnce (genP genF : Nat → GeneratorOutput) (config : ProdConfig) : RunOnceOut :=
  let ctx_reads := 1
  let primary := runOncePrimary genP config
  if primary.commit.isSome then
    { result := primary, fallbackRan := false, ctxReads := ctx_reads }
  else if missingCredential primary then
    { result := { primary with error := some "GROQ_API_KEY is not set." },
      fallbackRan := false, ctxReads := ctx_reads }
  else
    let constraints := constraints_to_dict config.constraints
    let fallback :=
      (runTarget genF constraints config.fallback.strategy config.fallback.provider
        config.fallback.model config.max_retries).1
    let fallback :=
      { fallback with
          meta :=
            Meta.set
              (Meta.set
                (Meta.set
                  (Meta.set fallback.meta "timeout_seconds"
                    (MetaVal.nat config.timeout_seconds))
                  "fallback_used" (MetaVal.bool true))
                "primary_error" (MetaVal.ofOptStr primary.error))
              "primary_retries" (MetaVal.nat primary.retries) }
    { result := fallback, fallbackRan := true, ctxReads := ctx_reads }

/-- Decimal digits of `n`, least significant first, computed with structural
fuel (any `fuel ≥ n` gives the same digits). -/
def decDigitsAux : Nat → Nat → List Nat
  | 0, _ => []
  | fuel + 1, n => if n = 0 then [] else n % 10 :: decDigitsAux fuel (n / 10)

/-- The character of a decimal digit. -/
def digitCh (d : Nat) : Char := Char.ofNat (48 + d)

/-- Decimal rendering of a natural number; models Python `str(index)` as used
by the f-string building batch configuration ids. -/
def natToDec (n : Nat) : String :=
  ((if n = 0 then [0] else (decDigitsAux n n).reverse).map digitCh).asString

/-- Model of `config/loader.py` `LabSingleConfig`. -/
structure LabSingleConfig : Type where
  provider : String
  model : String
  strategy : String
  constraints : ConstraintConfig
deriving DecidableEq, Repr

/-- Model of `config/loader.py` `LabBatchConfig`; the two Python dicts keep
their insertion order, modelled as association lists. -/
structure LabBatchConfig : Type where
  providers : List (String × List String)
  strategies : List String
  constraints : List (String × ConstraintConfig)
deriving DecidableEq, Repr

/-- Model of `lab/batch.py` `BatchExperimentResult`. -/
structure BatchExperimentResult : Type where
  config_id : String
  provider : String
  model : String
  strategy : String
  constraint_label : String
  result : EngineResult
deriving DecidableEq, Repr

/-- Model of `batch._expand_batch_matrix`: nested loops over providers (and
each provider's model list), strategies, then constraint labels. -/
def expand_batch_matrix (batch_config : LabBatchConfig) :
    List (String × LabSingleConfig) :=
  batch_config.providers.flatMap (fun pm =>
    pm.2.flatMap (fun model =>
      batch_config.strategies.flatMap (fun strategy =>
        batch_config.constraints.map (fun lc =>
          (lc.1,
           { provider := pm.1, model := model, strategy := strategy,
             constraints := lc.2 })))))

/-- The configuration id f-string of `batch.run_batch_experiments`:
`f"\x7bindex\x7d:\x7bprovider\x7d:\x7bmodel\x7d:\x7bstrategy\x7d:\x7blabel\x7d"`. -/
def mkConfigId (index : Nat) (provider model strategy label : String) : String :=
  natToDec index ++ ":" ++ provider ++ ":" ++ model ++ ":" ++ strategy ++ ":" ++ label

/-- Model of `batch.run_batch_experiments`.  Each expanded combination is run
through the engine (`run_single_experiment`), abstracted as the oracle
`runExp`; ids carry the 1-based position in expansion order. -/
def run_batch_experiments (runExp : LabSingleConfig → EngineResult)
    (batch_config : LabBatchConfig) : List BatchExperimentResult :=
  (expand_batch_matrix batch_config).enum.map (fun row =>
    { config_id :=
        mkConfigId (row.1 + 1) row.2.2.provider row.2.2.model row.2.2.strategy row.2.1
      provider := row.2.2.provider
      model := row.2.2.model
      strategy := row.2.2.strategy
      constraint_label := row.2.1
      result := runExp row.2.2 })

/-- Model of `lab/metrics.py` `MetricsSummary` (Python floats as rationals). -/
structure MetricsSummary : Type where
  valid_rate : ℚ
  average_latency : ℚ
  retry_rate : ℚ
  average_word_count : ℚ
  violation_frequency : List (String × Nat)
deriving DecidableEq, Repr

/-- One step of the violation-frequency loop:
`violation_frequency[v] = violation_frequency.get(v, 0) + 1` (a fresh key is
appended, an existing binding is incremented in place). -/
def bumpFreq (freq : List (String × Nat)) (v : String) : List (String × Nat) :=
  match freq with
  | [] => [(v, 1)]
  | p :: rest => if p.1 == v then (p.1, p.2 + 1) :: rest else p :: bumpFreq rest v

/-- Model of `metrics.compute_metrics`. -/
def compute_metrics (results : List EngineResult) : MetricsSummary :=
  if results.isEmpty then
    { valid_rate := 0, average_latency := 0, retry_rate := 0,
      average_word_count := 0, violation_frequency := [] }
  else
    let total_runs : ℚ := results.length
    let valid_runs : ℚ :=
      (results.filter (fun r => r.violations.isEmpty && r.error == none)).length
    let average_latency : ℚ := ((results.map (·.latency_ms)).sum : ℚ) / total_runs
    let retried_runs : ℚ := (results.filter (fun r => r.retries > 0)).length
    let word_counts : List Nat :=
      results.filterMap (fun r => r.commit.bind (fun c => c.word_count))
    let average_word_count : ℚ :=
      if word_counts.isEmpty then 0 else ((word_counts.sum : ℚ) / word_counts.length)
    { valid_rate := valid_runs / total_runs
      average_latency := average_latency
      retry_rate := retried_runs / total_runs
      average_word_count := average_word_count
      violation_frequency :=
        results.foldl (fun freq r => r.violations.foldl bumpFreq freq) [] }

/-- First-match lookup with default 0, as `metrics.get(key, 0.0)`. -/
def qLookup (m : List (String × ℚ)) (k : String) : ℚ :=
  match (m.find? (fun p => p.1 == k)).map (·.2) with
  | some q => q
  | none => 0

/-- Model of `compare._score_metrics`. -/
def score_metrics (metrics : List (String × ℚ)) : ℚ :=
  qLookup metrics "valid_rate" * 100 - qLookup metrics "retry_rate" * 20 -
    qLookup metrics "average_latency" / 1000

/-- The Python sort key of `compare.compare_configs` is `(-score, config_id)`;
this is the corresponding strict `<` on scored pairs. -/
def rankLT (a b : String × ℚ) : Bool :=
  decide (b.2 < a.2) || (decide (a.2 = b.2) && strLT a.1 b.1)

/-- Model of `compare.compare_configs`: score each configuration, then sort
descending by score with ties broken by ascending id (Python's stable sort on
key `(-score, config_id)`). -/
def compare_configs (metrics_by_config : List (String × List (String × ℚ))) :
    List (String × ℚ) :=
  pySorted rankLT (metrics_by_config.map (fun p => (p.1, score_metrics p.2)))

/-- Whether attempt `i` of a run fails (the backend/parse path produced no
commit, or the produced commit fails validation). -/
def attemptFails (gen : Nat → GeneratorOutput) (constraints : JObj) (i : Nat) : Bool :=
  match (gen i).commit with
  | none => true
  | some commit => !(validate_commit commit constraints).violations.isEmpty

/-- The error code a failing attempt `i` contributes as `last_error`. -/
def attemptErrCode (gen : Nat → GeneratorOutput) (constraints : JObj) (i : Nat) : String :=
  match (gen i).commit with
  | none => orUnknown (gen i).error
  | some _ => "validation_failed"

/-- The `last_violations` accumulator after attempts `t, t+1, …, t+fuel-1`,
starting from `acc`: it is overwritten by the validation outcome of every
attempt that produced a decodable commit, and untouched by backend/parse
failures. -/
def violationsThrough (gen : Nat → GeneratorOutput) (constraints : JObj) :
    Nat → Nat → List String → List String
  | _, 0, acc => acc
  | t, fuel + 1, acc =>
    violationsThrough gen constraints (t + 1) fuel
      (match (gen t).commit with
       | none => acc
       | some commit => (validate_commit commit constraints).violations)

/-- The `last_error` accumulator after attempts `t, …, t+fuel-1` (all assumed
failing), starting from `acc`. -/
def errThrough (gen : Nat → GeneratorOutput) (constraints : JObj) :
    Nat → Nat → Option String → Option String
  | _, 0, acc => acc
  | t, fuel + 1, _acc =>
    errThrough gen constraints (t + 1) fuel (some (attemptErrCode gen constraints t))

/-- The word counts the Metrics Aggregator averages over: one entry per result
that has both a candidate and a populated word count. -/
def eligibleWordCounts (results : List EngineResult) : List Nat :=
  (results.filter (fun r =>
      match r.commit with
      | some commit => commit.word_count.isSome
      | none => false)).map (fun r =>
    match r.commit with
    | some commit => commit.word_count.getD 0
    | none => 0)

/-- Value of a little-endian decimal digit list. -/
def decVal : List Nat → Nat
  | [] => 0
  | d :: ds => d + 10 * decVal ds

/-- Backend behaviour refuting C3 as stated: attempt 0 yields a decodable
candidate with a missing subject (a validation failure), every later attempt
fails with a backend `provider_error`. -/
def genValThenProviderError : Nat → GeneratorOutput
  | 0 =>
    { commit := some { type := none, scope := none, subject := none, body := none,
                       word_count := none },
      error := none, meta := [] }
  | _ + 1 =>
    { commit := none, error := some "provider_error", meta := [("reason", "boom")] }

/-- Backend behaviour that always fails with a `provider_error`. -/
def genAlwaysProviderError : Nat → GeneratorOutput := fun _ =>
  { commit := none, error := some "provider_error", meta := [("reason", "boom")] }

/-- Backend behaviour that always succeeds with a fixed small valid commit. -/
def genAlwaysOk : Nat → GeneratorOutput := fun _ =>
  { commit := some { type := some "fix", scope := none, subject := some "add cache",
                     body := none, word_count := none },
    error := none, meta := [("provider", "g"), ("model", "m")] }

/-- A small concrete production configuration used by witnesses. -/
def wConfig : ProdConfig :=
  { strategy := "s", provider := "p", model := "m",
    fallback := { provider := "fp", model := "fm", strategy := "fs" },
    constraints := { min := 1, max := 50 }, max_retries := 1, timeout_seconds := 60 }

/-- A small concrete batch matrix used by witnesses. -/
def wBatchConfig : LabBatchConfig :=
  { providers := [("g", ["m1", "m2"])], strategies := ["s1"],
    constraints := [("c1", { min := 1, max := 50 })] }

/-- A trivial engine oracle for batch witnesses. -/
def wRunExp : LabSingleConfig → EngineResult := fun _ =>
  { commit := none, violations := [], retries := 0, latency_ms := 0,
    error := some "provider_error", meta := [] }

/-- A concrete engine result with a populated word count, for metric
witnesses. -/
def wResultWithCount : EngineResult :=
  { commit := some { type := some "fix", scope := none, subject := some "add cache",
                     body := none, word_count := some 4 },
    violations := [], retries := 0, latency_ms := 120, error := none, meta := [] }

/-- A small concrete diff context used by witnesses and counterexamples. -/
def wCtx : DiffContext :=
  { diff := "d", status := "s", files_changed := [], insertions := 0, deletions := 0 }

/-- The empty diff context. -/
def wCtxEmpty : DiffContext :=
  { diff := "", status := "", files_changed := [], insertions := 0, deletions := 0 }


/-- The first expanded cell of `wBatchConfig`. -/
def wSingleConfig : LabSingleConfig :=
  { provider := "g", model := "m1", strategy := "s1", constraints := { min := 1, max := 50 } }


theorem runTargetGo_calls_le (gen : Nat → GeneratorOutput) (constraints : JObj)
    (strategy provider model : String) (max_retries : Nat) :
    ∀ fuel retries last_error last_violations last_meta calls,
      (runTargetGo gen constraints strategy provider model max_retries fuel retries
        last_error last_violations last_meta calls).2 ≤ calls + fuel := by
  intro fuel
  induction fuel with
  | zero =>
    intro retries last_error last_violations last_meta calls
    simp [runTargetGo]
  | succ fuel ih =>
    intro retries last_error last_violations last_meta calls
    simp only [runTargetGo]
    cases hc : (gen retries).commit with
    | none =>
      exact le_trans (ih (retries + 1) _ _ _ (calls + 1)) (by omega)
    | some commit =>
      by_cases hv : (validate_commit commit constraints).violations.isEmpty
      · simp only [hv, if_true]
        omega
      · simp only [hv, if_false]
        exact le_trans (ih (retries + 1) _ _ _ (calls + 1)) (by omega)

/-- C1: for every backend behaviour, constraint mapping, target identifiers and
retry cap `R`, the single-target attempt orchestrator `_run_target` performs at
most `R + 1` backend invocations and terminates, returning an `EngineResult`
(the model is a total function, and its invocation counter is bounded). -/
theorem runTarget_invocations_le_retry_cap_succ (gen : Nat → GeneratorOutput)
    (constraints : JObj) (strategy provider model : String) (R : Nat) :
    (runTarget gen constraints strategy provider model R).2 ≤ R + 1 := by
  simpa [runTarget] using
    runTargetGo_calls_le gen constraints strategy provider model R (R + 1) 0 none [] [] 0

theorem runTargetGo_exhausted (gen : Nat → GeneratorOutput) (constraints : JObj)
    (strategy provider model : String) (max_retries : Nat) :
    ∀ fuel t last_error last_violations last_meta calls,
      (∀ i, t ≤ i → i < t + fuel → attemptFails gen constraints i = true) →
      (runTargetGo gen constraints strategy provider model max_retries fuel t
          last_error last_violations last_meta calls).1.commit = none ∧
      (runTargetGo gen constraints strategy provider model max_retries fuel t
          last_error last_violations last_meta calls).1.retries = max_retries ∧
      (runTargetGo gen constraints strategy provider model max_retries fuel t
          last_error last_violations last_meta calls).1.error =
        errThrough gen constraints t fuel last_error ∧
      (runTargetGo gen constraints strategy provider model max_retries fuel t
          last_error last_violations last_meta calls).1.violations =
        violationsThrough gen constraints t fuel last_violations := by
  intro fuel
  induction fuel with
  | zero =>
    intro t last_error last_violations last_meta calls _
    exact ⟨rfl, rfl, rfl, rfl⟩
  | succ fuel ih =>
    intro t last_error last_violations last_meta calls hfail
    have hft : attemptFails gen constraints t = true := hfail t (Nat.le_refl t) (by omega)
    have hnext : ∀ i, t + 1 ≤ i → i < (t + 1) + fuel → attemptFails gen constraints i = true :=
      fun i h1 h2 => hfail i (by omega) (by omega)
    simp only [runTargetGo, errThrough, violationsThrough]
    cases hc : (gen t).commit with
    | none =>
      have herr : attemptErrCode gen constraints t = orUnknown (gen t).error := by
        simp [attemptErrCode, hc]
      rw [herr]
      exact ih (t + 1) _ _ _ (calls + 1) hnext
    | some commit =>
      have hv : (validate_commit commit constraints).violations.isEmpty = false := by
        have := hft
        simp only [attemptFails, hc, Bool.not_eq_true'] at this
        exact this
      have herr : attemptErrCode gen constraints t = "validation_failed" := by
        simp [attemptErrCode, hc]
      rw [herr]
      simp only [hv, if_false, Bool.false_eq_true]
      exact ih (t + 1) _ _ _ (calls + 1) hnext

theorem errThrough_succ (gen : Nat → GeneratorOutput) (constraints : JObj) :
    ∀ fuel t acc,
      errThrough gen constraints t (fuel + 1) acc =
        some (attemptErrCode gen constraints (t + fuel)) := by
  intro fuel
  induction fuel with
  | zero => intro t acc; simp [errThrough]
  | succ fuel ih =>
    intro t acc
    have : errThrough gen constraints t (fuel + 1 + 1) acc =
        errThrough gen constraints (t + 1) (fuel + 1) (some (attemptErrCode gen constraints t)) :=
      rfl
    rw [this, ih (t + 1)]
    have harg : t + 1 + fuel = t + (fuel + 1) := by omega
    rw [harg]

/-- C3 (amended): a run of the attempt orchestrator whose every attempt fails
returns an `EngineResult` with no candidate, `retries` equal to the cap, the
error code of the last failed attempt, and the violation list of the most
recent attempt that produced a decodable candidate — this list is retained
(not cleared) when later attempts fail with a backend/parse error, and is
empty only when no attempt in the run produced a candidate. -/
theorem runTarget_exhausted_characterization (gen : Nat → GeneratorOutput)
    (constraints : JObj) (strategy provider model : String) (R : Nat)
    (hfail : ∀ i, i ≤ R → attemptFails gen constraints i = true) :
    (runTarget gen constraints strategy provider model R).1.commit = none ∧
    (runTarget gen constraints strategy provider model R).1.retries = R ∧
    (runTarget gen constraints strategy provider model R).1.error =
      some (attemptErrCode gen constraints R) ∧
    (runTarget gen constraints strategy provider model R).1.violations =
      violationsThrough gen constraints 0 (R + 1) [] := by
  have h := runTargetGo_exhausted gen constraints strategy provider model R (R + 1) 0
    none [] [] 0 (fun i h1 h2 => hfail i (by omega))
  rw [errThrough_succ] at h
  simpa [runTarget] using h

/-- Witness for C3 (amended) at a backend that always reports a provider
error, with retry cap 0. -/
theorem runTarget_exhausted_characterization_witness :
    (runTarget genAlwaysProviderError [] "s" "p" "m" 0).1.commit = none ∧
    (runTarget genAlwaysProviderError [] "s" "p" "m" 0).1.retries = 0 ∧
    (runTarget genAlwaysProviderError [] "s" "p" "m" 0).1.error =
      some (attemptErrCode genAlwaysProviderError [] 0) ∧
    (runTarget genAlwaysProviderError [] "s" "p" "m" 0).1.violations =
      violationsThrough genAlwaysProviderError [] 0 1 [] :=
  runTarget_exhausted_characterization genAlwaysProviderError [] "s" "p" "m" 0
    (fun _ _ => rfl)

/-- Counterexample to C3 as stated: attempt 0 fails validation with
`subject_missing`, attempt 1 (the last) fails with a backend `provider_error`,
yet the exhausted result still carries the non-empty violation list of the
earlier attempt. -/
theorem runTarget_stale_violations_counterexample :
    (runTarget genValThenProviderError [] "s" "p" "m" 1).1.error =
      some "provider_error" ∧
    (runTarget genValThenProviderError [] "s" "p" "m" 1).1.violations =
      ["subject_missing"] := by
  constructor
  · decide
  · decide

/-- C2: the fallback coordinator `run_once` invokes the fallback target exactly
when the primary run produced no candidate and is not a missing-credential
`provider_error`; when the fallback runs, the returned result's metadata
carries `fallback_used = True`, `primary_error` equal to the primary's
terminal error, and `primary_retries` equal to the primary's consumed retry
count; and the git context is read exactly once in every case. -/
theorem runOnce_fallback_characterization (genP genF : Nat → GeneratorOutput)
    (config : ProdConfig) :
    ((runOnce genP genF config).fallbackRan = true ↔
      ((runOncePrimary genP config).commit = none ∧
        missingCredential (runOncePrimary genP config) = false)) ∧
    ((runOnce genP genF config).fallbackRan = true →
      Meta.get? (runOnce genP genF config).result.meta "fallback_used" =
          some (MetaVal.bool true) ∧
        Meta.get? (runOnce genP genF config).result.meta "primary_error" =
          some (MetaVal.ofOptStr (runOncePrimary genP config).error) ∧
        Meta.get? (runOnce genP genF config).result.meta "primary_retries" =
          some (MetaVal.nat (runOncePrimary genP config).retries)) ∧
    (runOnce genP genF config).ctxReads = 1 := by
  by_cases hc : (runOncePrimary genP config).commit.isSome
  · have hne : (runOncePrimary genP config).commit ≠ none :=
      Option.isSome_iff_ne_none.mp hc
    simp [runOnce, hc, hne]
  · have heq : (runOncePrimary genP config).commit = none :=
      Option.not_isSome_iff_eq_none.mp hc
    by_cases hm : missingCredential (runOncePrimary genP config)
    · simp [runOnce, hc, heq, hm]
    · simp only [runOnce, hc, Bool.false_eq_true, if_false, hm, heq]
      refine ⟨by simp [hm], fun _ => ⟨?_, ?_, ?_⟩, rfl⟩ <;>
        simp [Meta.get?, Meta.set, List.find?]

/-- Witness for C2 at a primary that always fails with a non-credential
provider error and a fallback that succeeds. -/
theorem runOnce_fallback_characterization_witness :
    (runOnce genAlwaysProviderError genAlwaysOk wConfig).fallbackRan = true ∧
    Meta.get? (runOnce genAlwaysProviderError genAlwaysOk wConfig).result.meta
      "fallback_used" = some (MetaVal.bool true) := by
  have h := runOnce_fallback_characterization genAlwaysProviderError genAlwaysOk wConfig
  have hfb : (runOnce genAlwaysProviderError genAlwaysOk wConfig).fallbackRan = true :=
    h.1.mpr ⟨by decide, by decide⟩
  exact ⟨hfb, (h.2.1 hfb).1⟩

theorem validate_presence_cases (commit : CommitMessage) :
    (optStrTruthy commit.subject = true ∧ validate_presence commit = [] ∧
      (validate_subject_length commit = [] ∨
        validate_subject_length commit = ["subject_too_long"])) ∨
    (optStrTruthy commit.subject = false ∧
      validate_presence commit = ["subject_missing"] ∧
      validate_subject_length commit = []) := by
  cases h : optStrTruthy commit.subject with
  | false => exact Or.inr ⟨rfl, by simp [validate_presence, h], by simp [validate_subject_length, h]⟩
  | true =>
    refine Or.inl ⟨rfl, by simp [validate_presence, h], ?_⟩
    simp only [validate_subject_length, h, if_true]
    split
    · exact Or.inr rfl
    · exact Or.inl rfl

theorem validate_conventional_format_cases (commit : CommitMessage) :
    validate_conventional_format commit = [] ∨
      validate_conventional_format commit = ["invalid_type_format"] := by
  unfold validate_conventional_format
  cases commit.type with
  | none => exact Or.inl rfl
  | some t =>
    by_cases h : pyMatchLowerWord t = true
    · exact Or.inl (by simp [h])
    · exact Or.inr (by simp [h])

/-- C5: with both bounds present as integers and `min ≤ max`, the validator
reports `word_count_below_min` iff the computed word count (whitespace tokens
of subject and body joined by a single space) is strictly below the minimum,
and `word_count_above_max` iff it is strictly above the maximum. -/
theorem validate_commit_word_count_bounds (mn mx : Int) (commit : CommitMessage)
    (hle : mn ≤ mx) :
    ("word_count_below_min" ∈
        (validate_commit commit
          [("min", JValue.num mn), ("max", JValue.num mx)]).violations ↔
      (compute_word_count commit : Int) < mn) ∧
    ("word_count_above_max" ∈
        (validate_commit commit
          [("min", JValue.num mn), ("max", JValue.num mx)]).violations ↔
      (compute_word_count commit : Int) > mx) := by
  have hB : validate_length_constraints (compute_word_count commit)
      [("min", JValue.num mn), ("max", JValue.num mx)] =
      (if (compute_word_count commit : Int) < mn then ["word_count_below_min"] else []) ++
      (if (compute_word_count commit : Int) > mx then ["word_count_above_max"] else []) := by
    simp [validate_length_constraints, jLookup, jsonInt, List.find?]
  have hP := validate_presence_cases commit
  have hF := validate_conventional_format_cases commit
  rcases hP with ⟨_, hp, hl | hl⟩ | ⟨_, hp, hl⟩ <;> rcases hF with hF | hF <;>
    simp only [validate_commit, hB, hp, hl, hF] <;>
    split_ifs <;> simp_all [List.mem_append]

/-- Witness for C5 at bounds 3 ≤ 50 and a two-word candidate. -/
theorem validate_commit_word_count_bounds_witness :
    ("word_count_below_min" ∈
        (validate_commit
          { type := none, scope := none, subject := some "add cache", body := none,
            word_count := none }
          [("min", JValue.num 3), ("max", JValue.num 50)]).violations ↔
      (compute_word_count
          { type := none, scope := none, subject := some "add cache", body := none,
            word_count := none } : Int) < 3) ∧
    ("word_count_above_max" ∈
        (validate_commit
          { type := none, scope := none, subject := some "add cache", body := none,
            word_count := none }
          [("min", JValue.num 3), ("max", JValue.num 50)]).violations ↔
      (compute_word_count
          { type := none, scope := none, subject := some "add cache", body := none,
            word_count := none } : Int) > 50) :=
  validate_commit_word_count_bounds 3 50
    { type := none, scope := none, subject := some "add cache", body := none,
      word_count := none } (by decide)

theorem validate_length_constraints_sublist (word_count : Nat) (constraints : JObj) :
    (validate_length_constraints word_count constraints).Sublist
      ["word_count_below_min", "word_count_above_max"] := by
  unfold validate_length_constraints
  cases hmn : jsonInt (jLookup constraints "min") <;>
    cases hmx : jsonInt (jLookup constraints "max") <;>
      simp only [hmn, hmx] <;> (try split_ifs) <;> simp

/-- C10: the validator emits each violation code at most once, in the fixed
relative order `subject_missing`, `subject_too_long`, `invalid_type_format`,
`word_count_below_min`, `word_count_above_max` (its violation list is a
sublist of that sequence), and `subject_missing` never co-occurs with
`subject_too_long` because the length check is skipped for an absent or empty
subject. -/
theorem validate_commit_violations_ordered (commit : CommitMessage) (constraints : JObj) :
    (validate_commit commit constraints).violations.Sublist
      ["subject_missing", "subject_too_long", "invalid_type_format",
        "word_count_below_min", "word_count_above_max"] ∧
    ¬("subject_missing" ∈ (validate_commit commit constraints).violations ∧
      "subject_too_long" ∈ (validate_commit commit constraints).violations) := by
  have hB := validate_length_constraints_sublist (compute_word_count commit) constraints
  have hBm : ∀ v ∈ validate_length_constraints (compute_word_count commit) constraints,
      v ∈ ["word_count_below_min", "word_count_above_max"] := fun v hv => hB.subset hv
  have hviol : (validate_commit commit constraints).violations =
      (validate_presence commit ++ validate_subject_length commit ++
        validate_conventional_format commit) ++
      validate_length_constraints (compute_word_count commit) constraints := rfl
  rcases validate_presence_cases commit with ⟨_, hp, hl | hl⟩ | ⟨_, hp, hl⟩ <;>
    rcases validate_conventional_format_cases commit with hF | hF <;>
      (refine ⟨?_, ?_⟩
       · have hPs : (validate_presence commit).Sublist ["subject_missing"] := by
           rw [hp]
           try first | exact List.nil_sublist _ | exact List.Sublist.refl _
         have hLs : (validate_subject_length commit).Sublist ["subject_too_long"] := by
           rw [hl]
           try first | exact List.nil_sublist _ | exact List.Sublist.refl _
         have hFs : (validate_conventional_format commit).Sublist ["invalid_type_format"] := by
           rw [hF]
           try first | exact List.nil_sublist _ | exact List.Sublist.refl _
         rw [hviol]
         exact ((hPs.append hLs).append hFs).append hB
       · rw [hviol, hp, hl, hF]
         rintro ⟨h1, h2⟩
         simp only [List.mem_append] at h1 h2
         rcases h1 with ((h1 | h1) | h1) | h1 <;> rcases h2 with ((h2 | h2) | h2) | h2 <;>
           first
             | exact absurd (hBm _ h1) (by decide)
             | exact absurd (hBm _ h2) (by decide)
             | simp_all)

/-- C4 (amended): the normalizer fails with `invalid_schema` exactly when the
`subject` field is present with a non-text value; a present non-text `type`,
`scope` or `body` does not fail the object but is dropped to absent, a present
text field is kept, and an absent field stays absent (`jTextOf` describes all
three cases at once). -/
theorem normalize_subject_schema_characterization (parsed : JObj) :
    ((∃ v, jLookup parsed "subject" = some v ∧ v.isStr = false) →
      Generator.normalizeOutcome parsed = Except.error "invalid_schema") ∧
    ((∀ v, jLookup parsed "subject" = some v → v.isStr = true) →
      Generator.normalizeOutcome parsed =
        Except.ok
          { type := jTextOf (jLookup parsed "type"),
            scope := jTextOf (jLookup parsed "scope"),
            subject := jTextOf (jLookup parsed "subject"),
            body := jTextOf (jLookup parsed "body"), word_count := none }) := by
  constructor
  · rintro ⟨v, hv, hstr⟩
    simp [Generator.normalizeOutcome, Generator.normalize, hv, hstr]
  · intro hok
    cases hsub : jLookup parsed "subject" with
    | none => simp [Generator.normalizeOutcome, Generator.normalize, hsub]
    | some v =>
      have := hok v hsub
      simp [Generator.normalizeOutcome, Generator.normalize, hsub, this]

/-- Witness for C4 (amended) at an object whose `subject` is the number 5. -/
theorem normalize_subject_schema_characterization_witness :
    Generator.normalizeOutcome [("subject", JValue.num 5)] =
      Except.error "invalid_schema" :=
  (normalize_subject_schema_characterization [("subject", JValue.num 5)]).1
    ⟨JValue.num 5, by decide, by decide⟩

/-- Counterexample to C4 as stated: `body` is present with the non-text value
5, yet the normalizer does not fail with `invalid_schema` — it produces a
candidate whose `body` is simply absent. -/
theorem normalize_nontext_body_counterexample :
    jLookup [("subject", JValue.str "x"), ("body", JValue.num 5)] "body" =
      some (JValue.num 5) ∧
    Generator.normalizeOutcome [("subject", JValue.str "x"), ("body", JValue.num 5)] =
      Except.ok
        { type := none, scope := none, subject := some "x", body := none,
          word_count := none } := by
  constructor
  · decide
  · rfl

theorem charListLT_asymm : ∀ as bs, charListLT as bs = true → charListLT bs as = false := by
  intro as
  induction as with
  | nil =>
    intro bs h
    cases bs with
    | nil => simp [charListLT] at h
    | cons b bs => simp [charListLT]
  | cons a as ih =>
    intro bs h
    cases bs with
    | nil => simp [charListLT] at h
    | cons b bs =>
      simp only [charListLT] at h ⊢
      by_cases hab : a < b
      · have h1 : ¬ b < a := lt_asymm hab
        have h2 : ¬ b = a := ne_of_gt hab
        simp [h1, h2]
      · by_cases heq : a = b
        · subst heq
          simp only [lt_irrefl, if_false, if_pos rfl] at h ⊢
          exact ih bs h
        · simp [hab, heq] at h

theorem charListLT_trans :
    ∀ as bs cs, charListLT as bs = true → charListLT bs cs = true →
      charListLT as cs = true := by
  intro as
  induction as with
  | nil =>
    intro bs cs h1 h2
    cases bs with
    | nil => simp [charListLT] at h1
    | cons b bs =>
      cases cs with
      | nil => simp [charListLT] at h2
      | cons c cs => simp [charListLT]
  | cons a as ih =>
    intro bs cs h1 h2
    cases bs with
    | nil => simp [charListLT] at h1
    | cons b bs =>
      cases cs with
      | nil => simp [charListLT] at h2
      | cons c cs =>
        simp only [charListLT] at h1 h2 ⊢
        by_cases hab : a < b
        · by_cases hbc : b < c
          · simp [lt_trans hab hbc]
          · by_cases hbc2 : b = c
            · subst hbc2
              simp [hab]
            · simp [hbc, hbc2] at h2
        · by_cases hab2 : a = b
          · subst hab2
            simp only [lt_irrefl, if_false, if_pos rfl] at h1
            by_cases hac : a < c
            · simp [hac]
            · by_cases hac2 : a = c
              · subst hac2
                simp only [lt_irrefl, if_false, if_pos rfl] at h2 ⊢
                exact ih bs cs h1 h2
              · simp [hac, hac2] at h2
          · simp [hab, hab2] at h1

theorem charListLT_connex :
    ∀ as bs, charListLT as bs = false → charListLT bs as = false → as = bs := by
  intro as
  induction as with
  | nil =>
    intro bs h1 _
    cases bs with
    | nil => rfl
    | cons b bs => simp [charListLT] at h1
  | cons a as ih =>
    intro bs h1 h2
    cases bs with
    | nil => simp [charListLT] at h2
    | cons b bs =>
      simp only [charListLT] at h1 h2
      by_cases hab : a < b
      · simp [hab] at h1
      · by_cases hba : b < a
        · simp [hba] at h2
        · have heq : a = b := le_antisymm (not_lt.mp hba) (not_lt.mp hab)
          subst heq
          simp only [lt_irrefl, if_false, if_pos rfl] at h1 h2
          rw [ih bs h1 h2]

theorem strLT_asymm (a b : String) : strLT a b = true → strLT b a = false :=
  charListLT_asymm a.toList b.toList

theorem strLT_trans (a b c : String) :
    strLT a b = true → strLT b c = true → strLT a c = true :=
  charListLT_trans a.toList b.toList c.toList

theorem strLT_connex (a b : String) :
    strLT a b = false → strLT b a = false → a = b := by
  intro h1 h2
  exact String.ext (charListLT_connex a.toList b.toList h1 h2)

theorem bool_lt_negtrans {α : Type} (lt : α → α → Bool)
    (htrans : ∀ a b c, lt a b = true → lt b c = true → lt a c = true)
    (hconnex : ∀ a b, lt a b = false → lt b a = false → a = b) :
    ∀ a b c, lt a b = false → lt b c = false → lt a c = false := by
  intro a b c hab hbc
  cases hac : lt a c with
  | false => rfl
  | true =>
    exfalso
    cases hba : lt b a with
    | true =>
      have := htrans b a c hba hac
      rw [this] at hbc
      cases hbc
    | false =>
      have heq : a = b := hconnex a b hab hba
      subst heq
      rw [hac] at hbc
      cases hbc

theorem strLT_negtrans (a b c : String) :
    strLT a b = false → strLT b c = false → strLT a c = false :=
  bool_lt_negtrans strLT strLT_trans strLT_connex a b c

theorem pyInsert_perm (lt : α → α → Bool) (x : α) :
    ∀ l, (pyInsert lt x l).Perm (x :: l) := by
  intro l
  induction l with
  | nil => exact List.Perm.refl _
  | cons y ys ih =>
    simp only [pyInsert]
    split
    · exact (ih.cons y).trans (List.Perm.swap x y ys)
    · exact List.Perm.refl _

theorem pySorted_perm (lt : α → α → Bool) : ∀ l, (pySorted lt l).Perm l := by
  intro l
  induction l with
  | nil => exact List.Perm.refl _
  | cons x xs ih => exact (pyInsert_perm lt x _).trans (ih.cons x)

theorem pairwise_pyInsert (lt : α → α → Bool)
    (hasymm : ∀ a b, lt a b = true → lt b a = false)
    (hneg : ∀ a b c, lt a b = false → lt b c = false → lt a c = false)
    (x : α) : ∀ l, l.Pairwise (fun a b => lt b a = false) →
      (pyInsert lt x l).Pairwise (fun a b => lt b a = false) := by
  intro l
  induction l with
  | nil =>
    intro _
    simp [pyInsert]
  | cons y ys ih =>
    intro h
    rcases List.pairwise_cons.mp h with ⟨hy, hys⟩
    simp only [pyInsert]
    split
    case isTrue hlt =>
      refine List.pairwise_cons.mpr ⟨?_, ih hys⟩
      intro z hz
      rcases List.mem_cons.mp ((pyInsert_perm lt x ys).mem_iff.mp hz) with rfl | hz
      · exact hasymm y z hlt
      · exact hy z hz
    case isFalse hlt =>
      have hyx : lt y x = false := by
        revert hlt
        cases lt y x <;> simp
      refine List.pairwise_cons.mpr ⟨?_, h⟩
      intro z hz
      rcases List.mem_cons.mp hz with rfl | hz
      · exact hyx
      · exact hneg z y x (hy z hz) hyx

theorem pairwise_pySorted (lt : α → α → Bool)
    (hasymm : ∀ a b, lt a b = true → lt b a = false)
    (hneg : ∀ a b c, lt a b = false → lt b c = false → lt a c = false) :
    ∀ l, (pySorted lt l).Pairwise (fun a b => lt b a = false) := by
  intro l
  induction l with
  | nil => simp [pySorted]
  | cons x xs ih => exact pairwise_pyInsert lt hasymm hneg x _ ih

theorem eq_of_perm_of_strict_sorted (lt : α → α → Bool)
    (hasymm : ∀ a b, lt a b = true → lt b a = false) :
    ∀ l₁ l₂ : List α, l₁.Perm l₂ → l₁.Pairwise (fun a b => lt a b = true) →
      l₂.Pairwise (fun a b => lt a b = true) → l₁ = l₂ := by
  intro l₁
  induction l₁ with
  | nil =>
    intro l₂ hp _ _
    exact hp.nil_eq
  | cons a t₁ ih =>
    intro l₂ hp h1 h2
    cases l₂ with
    | nil => simpa using hp.length_eq
    | cons b t₂ =>
      rcases List.pairwise_cons.mp h1 with ⟨ha, ht₁⟩
      rcases List.pairwise_cons.mp h2 with ⟨hb, ht₂⟩
      have hab : a = b := by
        by_contra hne
        have hat₂ : a ∈ t₂ := by
          rcases List.mem_cons.mp (hp.subset (List.mem_cons_self a t₁)) with h | h
          · exact absurd h hne
          · exact h
        have hbt₁ : b ∈ t₁ := by
          rcases List.mem_cons.mp (hp.symm.subset (List.mem_cons_self b t₂)) with h | h
          · exact absurd h.symm hne
          · exact h
        have hba := hb a hat₂
        rw [hasymm a b (ha b hbt₁)] at hba
        cases hba
      subst hab
      rw [ih t₂ hp.cons_inv ht₁ ht₂]

theorem pySorted_key_perm_eq (l₁ l₂ : JObj) (hperm : l₁.Perm l₂)
    (hnd : (l₁.map Prod.fst).Nodup) :
    pySorted (fun a b => strLT a.1 b.1) l₁ = pySorted (fun a b => strLT a.1 b.1) l₂ := by
  have hasymm : ∀ a b : String × JValue,
      strLT a.1 b.1 = true → strLT b.1 a.1 = false :=
    fun a b h => strLT_asymm a.1 b.1 h
  have hneg : ∀ a b c : String × JValue, strLT a.1 b.1 = false →
      strLT b.1 c.1 = false → strLT a.1 c.1 = false :=
    fun a b c h1 h2 => strLT_negtrans a.1 b.1 c.1 h1 h2
  have hp1 := pairwise_pySorted (fun a b : String × JValue => strLT a.1 b.1) hasymm hneg l₁
  have hp2 := pairwise_pySorted (fun a b : String × JValue => strLT a.1 b.1) hasymm hneg l₂
  have hperm1 := pySorted_perm (fun a b : String × JValue => strLT a.1 b.1) l₁
  have hperm2 := pySorted_perm (fun a b : String × JValue => strLT a.1 b.1) l₂
  have hnd2 : (l₂.map Prod.fst).Nodup := ((hperm.map Prod.fst).nodup_iff).mp hnd
  have hnd1s : ((pySorted (fun a b : String × JValue => strLT a.1 b.1) l₁).map
      Prod.fst).Nodup := ((hperm1.map Prod.fst).nodup_iff).mpr hnd
  have hnd2s : ((pySorted (fun a b : String × JValue => strLT a.1 b.1) l₂).map
      Prod.fst).Nodup := ((hperm2.map Prod.fst).nodup_iff).mpr hnd2
  have hstrict : ∀ s : JObj,
      s.Pairwise (fun a b => strLT b.1 a.1 = false) → (s.map Prod.fst).Nodup →
      s.Pairwise (fun a b => strLT a.1 b.1 = true) := by
    intro s hpw hnds
    have hne : s.Pairwise (fun a b => a.1 ≠ b.1) := by
      rw [List.Nodup, List.pairwise_map] at hnds
      exact hnds
    refine (hpw.and hne).imp ?_
    rintro a b ⟨hfalse, hneq⟩
    cases hab : strLT a.1 b.1 with
    | true => rfl
    | false => exact absurd (strLT_connex a.1 b.1 hab hfalse) hneq
  exact eq_of_perm_of_strict_sorted (fun a b : String × JValue => strLT a.1 b.1) hasymm
    _ _ (hperm1.trans (hperm.trans hperm2.symm)) (hstrict _ hp1 hnd1s) (hstrict _ hp2 hnd2s)

/-- C6 (amended): the composed prompt is a deterministic function of template,
snapshot, intent and constraints, insensitive to the ordering of the
constraints mapping because the bounds are serialized with sorted keys; an
absent intent is rendered as an empty intent field (identical to an
empty-string intent), not as a "none" marker. -/
theorem build_prompt_deterministic_sorted_keys (template : String)
    (context : DiffContext) (intent : Option String) (cs₁ cs₂ : JObj)
    (hperm : cs₁.Perm cs₂) (hnd : (cs₁.map Prod.fst).Nodup) :
    build_prompt template context intent (some cs₁) =
      build_prompt template context intent (some cs₂) ∧
    build_prompt template context none (some cs₁) =
      build_prompt template context (some "") (some cs₁) := by
  constructor
  · have h := pySorted_key_perm_eq cs₁ cs₂ hperm hnd
    simp [build_prompt, jsonDumpsSorted, h]
  · rfl

/-- Witness for C6 (amended) at a two-key constraints mapping and its
reversal. -/
theorem build_prompt_deterministic_sorted_keys_witness :
    build_prompt "t" wCtx none (some [("min", JValue.num 1), ("max", JValue.num 2)]) =
      build_prompt "t" wCtx none (some [("max", JValue.num 2), ("min", JValue.num 1)]) ∧
    build_prompt "t" wCtx none (some [("min", JValue.num 1), ("max", JValue.num 2)]) =
      build_prompt "t" wCtx (some "") (some [("min", JValue.num 1), ("max", JValue.num 2)]) :=
  build_prompt_deterministic_sorted_keys "t" wCtx none
    [("min", JValue.num 1), ("max", JValue.num 2)]
    [("max", JValue.num 2), ("min", JValue.num 1)] (by decide) (by decide)

/-- Counterexample to C6 as stated: with an absent intent the prompt is not the
prompt an explicit "none" intent marker would give, and the word "none" does
not occur in the prompt text at all. -/
theorem build_prompt_no_none_marker_counterexample :
    build_prompt "" wCtxEmpty none none ≠ build_prompt "" wCtxEmpty (some "none") none ∧
    pyInStr "none" (build_prompt "" wCtxEmpty none none) = false := by
  constructor
  · decide
  · decide

theorem rankLT_asymm (a b : String × ℚ) : rankLT a b = true → rankLT b a = false := by
  simp only [rankLT, Bool.or_eq_true, Bool.and_eq_true, decide_eq_true_eq]
  rintro (hlt | ⟨heq, hstr⟩)
  · have h1 : ¬ a.2 < b.2 := lt_asymm hlt
    have h2 : b.2 ≠ a.2 := ne_of_lt hlt
    simp [h1, h2]
  · have h1 : ¬ a.2 < b.2 := by rw [heq]; exact lt_irrefl _
    have h2 : strLT b.1 a.1 = false := strLT_asymm a.1 b.1 hstr
    simp [h1, heq, h2]

theorem rankLT_negtrans (a b c : String × ℚ) :
    rankLT a b = false → rankLT b c = false → rankLT a c = false := by
  intro hab hbc
  rcases Bool.or_eq_false_iff.mp hab with ⟨hab1, hab2⟩
  rcases Bool.or_eq_false_iff.mp hbc with ⟨hbc1, hbc2⟩
  have hab1' : ¬ b.2 < a.2 := of_decide_eq_false hab1
  have hbc1' : ¬ c.2 < b.2 := of_decide_eq_false hbc1
  have hableq : a.2 ≤ b.2 := not_lt.mp hab1'
  have hbcleq : b.2 ≤ c.2 := not_lt.mp hbc1'
  refine Bool.or_eq_false_iff.mpr ⟨decide_eq_false (not_lt.mpr (hableq.trans hbcleq)), ?_⟩
  by_cases heq : a.2 = c.2
  · have heqab : a.2 = b.2 := le_antisymm hableq (heq ▸ hbcleq)
    have heqbc : b.2 = c.2 := heqab ▸ heq
    have hs1 : strLT a.1 b.1 = false := by
      rcases Bool.and_eq_false_iff.mp hab2 with h | h
      · exact absurd heqab (of_decide_eq_false h)
      · exact h
    have hs2 : strLT b.1 c.1 = false := by
      rcases Bool.and_eq_false_iff.mp hbc2 with h | h
      · exact absurd heqbc (of_decide_eq_false h)
      · exact h
    exact Bool.and_eq_false_iff.mpr (Or.inr (strLT_negtrans a.1 b.1 c.1 hs1 hs2))
  · exact Bool.and_eq_false_iff.mpr (Or.inl (decide_eq_false heq))

/-- C9: the config ranker returns one `(configuration id, score)` pair per
input configuration, with the score `100 × valid_rate − 20 × retry_rate −
average_latency / 1000` (missing metric keys contributing 0), and its output
is sorted by strictly descending score with ties broken by ascending
(code-point lexicographic) configuration id. -/
theorem compare_configs_ranked (metrics_by_config : List (String × List (String × ℚ))) :
    (compare_configs metrics_by_config).Perm
      (metrics_by_config.map (fun p =>
        (p.1, qLookup p.2 "valid_rate" * 100 - qLookup p.2 "retry_rate" * 20 -
          qLookup p.2 "average_latency" / 1000))) ∧
    (compare_configs metrics_by_config).Pairwise
      (fun a b => b.2 < a.2 ∨ (a.2 = b.2 ∧ strLT b.1 a.1 = false)) := by
  constructor
  · exact pySorted_perm rankLT _
  · have h := pairwise_pySorted rankLT rankLT_asymm rankLT_negtrans
      (metrics_by_config.map (fun p => (p.1, score_metrics p.2)))
    refine h.imp ?_
    intro a b hfalse
    rcases Bool.or_eq_false_iff.mp hfalse with ⟨h1, h2⟩
    have h1' : ¬ a.2 < b.2 := of_decide_eq_false h1
    rcases lt_trichotomy a.2 b.2 with h | h | h
    · exact absurd h h1'
    · refine Or.inr ⟨h, ?_⟩
      rcases Bool.and_eq_false_iff.mp h2 with hh | hh
      · exact absurd h.symm (of_decide_eq_false hh)
      · exact hh
    · exact Or.inl h

theorem filterMap_word_counts_eq (results : List EngineResult) :
    results.filterMap (fun r => r.commit.bind (fun c => c.word_count)) =
      eligibleWordCounts results := by
  induction results with
  | nil => rfl
  | cons r rs ih =>
    cases hc : r.commit with
    | none =>
      simp [List.filterMap_cons, eligibleWordCounts, List.filter_cons, hc,
        eligibleWordCounts] at ih ⊢
      exact ih
    | some c =>
      cases hw : c.word_count with
      | none =>
        simp [List.filterMap_cons, eligibleWordCounts, List.filter_cons, hc, hw] at ih ⊢
        exact ih
      | some n =>
        simp [List.filterMap_cons, eligibleWordCounts, List.filter_cons, hc, hw] at ih ⊢
        exact ih

/-- C8: on an empty input the metrics aggregator returns zero for every rate
and average and an empty violation-frequency map; on a non-empty input the
average word count is the mean over exactly those results that have both a
candidate and a populated word count, and 0 when no such result exists. -/
theorem compute_metrics_empty_and_word_average :
    compute_metrics [] =
      { valid_rate := 0, average_latency := 0, retry_rate := 0,
        average_word_count := 0, violation_frequency := [] } ∧
    ∀ results : List EngineResult, results ≠ [] →
      (compute_metrics results).average_word_count =
        (if (eligibleWordCounts results).isEmpty then 0
         else ((eligibleWordCounts results).sum : ℚ) / (eligibleWordCounts results).length) := by
  constructor
  · rfl
  · intro results hne
    have hres : results.isEmpty = false := by
      cases results with
      | nil => exact absurd rfl hne
      | cons r rs => rfl
    rw [compute_metrics, if_neg (by rw [hres]; exact Bool.false_ne_true)]
    simp only [filterMap_word_counts_eq]

/-- Witness for C8 at a single result carrying word count 4. -/
theorem compute_metrics_word_average_witness :
    (compute_metrics [wResultWithCount]).average_word_count =
      (if (eligibleWordCounts [wResultWithCount]).isEmpty then 0
       else ((eligibleWordCounts [wResultWithCount]).sum : ℚ) /
         (eligibleWordCounts [wResultWithCount]).length) :=
  compute_metrics_empty_and_word_average.2 [wResultWithCount] (by simp)

theorem decDigitsAux_lt_ten :
    ∀ fuel n, ∀ d ∈ decDigitsAux fuel n, d < 10 := by
  intro fuel
  induction fuel with
  | zero => intro n d hd; simp [decDigitsAux] at hd
  | succ fuel ih =>
    intro n d hd
    by_cases hn : n = 0
    · simp [decDigitsAux, hn] at hd
    · simp only [decDigitsAux, hn, if_false] at hd
      rcases List.mem_cons.mp hd with rfl | hd
      · exact Nat.mod_lt n (by omega)
      · exact ih (n / 10) d hd

theorem decVal_decDigitsAux : ∀ fuel n, n ≤ fuel → decVal (decDigitsAux fuel n) = n := by
  intro fuel
  induction fuel with
  | zero =>
    intro n hn
    interval_cases n
    rfl
  | succ fuel ih =>
    intro n hn
    by_cases hn0 : n = 0
    · simp [decDigitsAux, hn0, decVal]
    · have hdiv : n / 10 ≤ fuel := by omega
      simp only [decDigitsAux, hn0, if_false, decVal, ih (n / 10) hdiv]
      omega

theorem digitCh_inj : ∀ d₁ d₂, d₁ < 10 → d₂ < 10 → digitCh d₁ = digitCh d₂ → d₁ = d₂ := by
  intro d₁ d₂ h₁ h₂ h
  interval_cases d₁ <;> interval_cases d₂ <;> first | rfl | exact absurd h (by decide)

theorem digitCh_ne_colon : ∀ d, d < 10 → digitCh d ≠ ':' := by
  intro d hd
  interval_cases d <;> decide

theorem map_digitCh_inj :
    ∀ l₁ l₂ : List Nat, (∀ d ∈ l₁, d < 10) → (∀ d ∈ l₂, d < 10) →
      l₁.map digitCh = l₂.map digitCh → l₁ = l₂ := by
  intro l₁
  induction l₁ with
  | nil =>
    intro l₂ _ _ h
    cases l₂ with
    | nil => rfl
    | cons b bs => simp at h
  | cons a as ih =>
    intro l₂ h₁ h₂ h
    cases l₂ with
    | nil => simp at h
    | cons b bs =>
      rw [List.map_cons, List.map_cons] at h
      have hab : digitCh a = digitCh b := by injection h
      have htl : as.map digitCh = bs.map digitCh := by injection h
      rw [digitCh_inj a b (h₁ a (List.mem_cons_self a as)) (h₂ b (List.mem_cons_self b bs)) hab,
        ih bs (fun d hd => h₁ d (List.mem_cons_of_mem a hd))
          (fun d hd => h₂ d (List.mem_cons_of_mem b hd)) htl]

theorem natToDec_digits_lt (n : Nat) :
    ∀ d ∈ (if n = 0 then [0] else (decDigitsAux n n).reverse), d < 10 := by
  intro d hd
  by_cases hn : n = 0
  · simp [hn] at hd
    omega
  · simp only [hn, if_false, List.mem_reverse] at hd
    exact decDigitsAux_lt_ten n n d hd

theorem natToDec_inj : ∀ a b : Nat, natToDec a = natToDec b → a = b := by
  intro a b h
  have hdata : ((if a = 0 then [0] else (decDigitsAux a a).reverse).map digitCh) =
      ((if b = 0 then [0] else (decDigitsAux b b).reverse).map digitCh) :=
    congrArg String.data h
  have hlists := map_digitCh_inj _ _ (natToDec_digits_lt a) (natToDec_digits_lt b) hdata
  have hvala : decVal ((if a = 0 then [0] else (decDigitsAux a a).reverse).reverse) = a := by
    by_cases ha : a = 0
    · simp [ha, decVal]
    · simp only [ha, if_false, List.reverse_reverse]
      exact decVal_decDigitsAux a a (Nat.le_refl a)
  have hvalb : decVal ((if b = 0 then [0] else (decDigitsAux b b).reverse).reverse) = b := by
    by_cases hb : b = 0
    · simp [hb, decVal]
    · simp only [hb, if_false, List.reverse_reverse]
      exact decVal_decDigitsAux b b (Nat.le_refl b)
  rw [← hvala, ← hvalb, hlists]

theorem natToDec_no_colon (n : Nat) : ∀ c ∈ (natToDec n).data, (c != ':') = true := by
  intro c hc
  have hc' : c ∈ (if n = 0 then [0] else (decDigitsAux n n).reverse).map digitCh := hc
  rcases List.mem_map.mp hc' with ⟨d, hd, rfl⟩
  have := digitCh_ne_colon d (natToDec_digits_lt n d hd)
  simpa using this

theorem takeWhile_append_cons (p : Char → Bool) :
    ∀ (A : List Char) (c : Char) (r : List Char), (∀ a ∈ A, p a = true) → p c = false →
      (A ++ c :: r).takeWhile p = A := by
  intro A
  induction A with
  | nil =>
    intro c r _ hc
    simp [List.takeWhile_cons, hc]
  | cons a as ih =>
    intro c r hA hc
    have ha : p a = true := hA a (List.mem_cons_self a as)
    simp only [List.cons_append, List.takeWhile_cons, ha, if_true]
    rw [ih c r (fun x hx => hA x (List.mem_cons_of_mem a hx)) hc]

theorem mkConfigId_data (i : Nat) (p m s l : String) :
    (mkConfigId i p m s l).data =
      (natToDec i).data ++
        ':' :: (p.data ++ ':' :: (m.data ++ ':' :: (s.data ++ ':' :: l.data))) := by
  simp [mkConfigId, String.data_append]

theorem mkConfigId_index_inj (i₁ i₂ : Nat) (p₁ m₁ s₁ l₁ p₂ m₂ s₂ l₂ : String) :
    mkConfigId i₁ p₁ m₁ s₁ l₁ = mkConfigId i₂ p₂ m₂ s₂ l₂ → i₁ = i₂ := by
  intro h
  have hdata := congrArg String.data h
  rw [mkConfigId_data, mkConfigId_data] at hdata
  have htw := congrArg (List.takeWhile (fun c => c != ':')) hdata
  rw [takeWhile_append_cons _ _ _ _ (natToDec_no_colon i₁) (by decide),
    takeWhile_append_cons _ _ _ _ (natToDec_no_colon i₂) (by decide)] at htw
  exact natToDec_inj i₁ i₂ (String.ext htw)

theorem nodup_map_enumFrom {α β : Type} (f : Nat × α → β)
    (hinj : ∀ p q : Nat × α, f p = f q → p.1 = q.1) :
    ∀ (n : Nat) (l : List α), ((l.enumFrom n).map f).Nodup := by
  intro n l
  induction l generalizing n with
  | nil => simp
  | cons a t ih =>
    rw [show (a :: t).enumFrom n = (n, a) :: t.enumFrom (n + 1) from rfl, List.map_cons]
    refine List.nodup_cons.mpr ⟨?_, ih (n + 1)⟩
    intro hmem
    rcases List.mem_map.mp hmem with ⟨q, hq, hfq⟩
    have heq := hinj q (n, a) hfq
    have hge := (List.mem_enumFrom hq).1
    omega

theorem length_flatMap_const {α β : Type} (l : List α) (f : α → List β) (c : Nat)
    (h : ∀ a, (f a).length = c) : (l.flatMap f).length = l.length * c := by
  induction l with
  | nil => simp
  | cons a t ih =>
    rw [List.flatMap_cons, List.length_append, ih, h a, List.length_cons]
    ring

theorem expand_batch_matrix_length (bc : LabBatchConfig) :
    (expand_batch_matrix bc).length =
      (bc.providers.map (fun pm => pm.2.length)).sum * bc.strategies.length *
        bc.constraints.length := by
  have hmodel : ∀ (provider : String) (models : List String),
      (models.flatMap (fun model =>
        bc.strategies.flatMap (fun strategy =>
          bc.constraints.map (fun lc =>
            (lc.1,
             { provider := provider, model := model, strategy := strategy,
               constraints := lc.2 : LabSingleConfig}))))).length =
      models.length * (bc.strategies.length * bc.constraints.length) := by
    intro provider models
    refine length_flatMap_const _ _ _ (fun model => ?_)
    refine length_flatMap_const _ _ _ (fun strategy => ?_)
    exact List.length_map _ _
  unfold expand_batch_matrix
  generalize bc.providers = ps
  induction ps with
  | nil => simp
  | cons pm t ih =>
    rw [List.flatMap_cons, List.length_append, ih, hmodel pm.1 pm.2, List.map_cons,
      List.sum_cons]
    ring

/-- C7: batch expansion yields exactly `(Σ models per backend) × strategies ×
constraint labels` rows (zero for an empty matrix), row `j` (0-based) carries
the expansion-order components of cell `j` and the configuration id
`<j+1>:<backend>:<model>:<strategy>:<label>`, and all configuration ids are
pairwise distinct. -/
theorem run_batch_experiments_rows (runExp : LabSingleConfig → EngineResult)
    (bc : LabBatchConfig) :
    (run_batch_experiments runExp bc).length =
      (bc.providers.map (fun pm => pm.2.length)).sum * bc.strategies.length *
        bc.constraints.length ∧
    ((run_batch_experiments runExp bc).map (fun r => r.config_id)).Nodup ∧
    (∀ (j : Nat) (lab : String) (sc : LabSingleConfig),
      (expand_batch_matrix bc)[j]? = some (lab, sc) →
      (run_batch_experiments runExp bc)[j]? =
        some { config_id := mkConfigId (j + 1) sc.provider sc.model sc.strategy lab,
               provider := sc.provider, model := sc.model, strategy := sc.strategy,
               constraint_label := lab, result := runExp sc }) := by
  refine ⟨?_, ?_, ?_⟩
  · unfold run_batch_experiments
    rw [List.length_map, List.enum_length]
    exact expand_batch_matrix_length bc
  · unfold run_batch_experiments
    rw [List.map_map]
    exact nodup_map_enumFrom
      (fun row : Nat × (String × LabSingleConfig) =>
        mkConfigId (row.1 + 1) row.2.2.provider row.2.2.model row.2.2.strategy row.2.1)
      (fun p q h => by
        have := mkConfigId_index_inj (p.1 + 1) (q.1 + 1) _ _ _ _ _ _ _ _ h
        omega)
      0 (expand_batch_matrix bc)
  · intro j lab sc hj
    unfold run_batch_experiments
    rw [List.getElem?_map, List.getElem?_enum, hj]
    rfl

/-- Witness for C7 at a one-provider, two-model, one-strategy, one-label
matrix: row 0 carries id `1:g:m1:s1:c1`. -/
theorem run_batch_experiments_rows_witness :
    (run_batch_experiments wRunExp wBatchConfig)[0]? =
      some { config_id := mkConfigId 1 "g" "m1" "s1" "c1", provider := "g",
             model := "m1", strategy := "s1", constraint_label := "c1",
             result := wRunExp wSingleConfig } :=
  (run_batch_experiments_rows wRunExp wBatchConfig).2.2 0 "c1" wSingleConfig (by decide)

/-- Witness for C9 at two configurations with identical (empty) metrics, hence
tied scores ordered by ascending id. -/
theorem compare_configs_ranked_witness :
    (compare_configs [("b", []), ("a", [])]).Perm
      ([("b", ([] : List (String × ℚ))), ("a", [])].map (fun p =>
        (p.1, qLookup p.2 "valid_rate" * 100 - qLookup p.2 "retry_rate" * 20 -
          qLookup p.2 "average_latency" / 1000))) ∧
    (compare_configs [("b", []), ("a", [])]).Pairwise
      (fun a b => b.2 < a.2 ∨ (a.2 = b.2 ∧ strLT b.1 a.1 = false)) :=
  compare_configs_ranked [("b", []), ("a", [])]

/-- Witness for C10 at a subject-less candidate and empty constraints. -/
theorem validate_commit_violations_ordered_witness :
    (validate_commit
        { type := none, scope := none, subject := none, body := none, word_count := none }
        []).violations.Sublist
      ["subject_missing", "subject_too_long", "invalid_type_format",
        "word_count_below_min", "word_count_above_max"] ∧
    ¬("subject_missing" ∈
        (validate_commit
          { type := none, scope := none, subject := none, body := none, word_count := none }
          []).violations ∧
      "subject_too_long" ∈
        (validate_commit
          { type := none, scope := none, subject := none, body := none, word_count := none }
          []).violations) :=
  validate_commit_violations_ordered
    { type := none, scope := none, subject := none, body := none, word_count := none } []
